import Mathlib

/-!
# Verification of the YouTube media-retrieval orchestration layer

Shallow embedding of the pure orchestration logic of `src/app.py` and
`src/backend_api.py` (URL normalization, resolution labelling, format
scoring, collision-safe file naming, and the progress / cancellation
event traces of the job pipelines), together with theorems settling the
frozen claims about that code.

Strings are modelled as `List Char` internally; the Python standard
library functions the code calls (`urllib.parse.urlparse`,
`urllib.parse.parse_qs`, `str.strip`, `str.split`, `os.path.join`) are
modelled faithfully on the input space this program feeds them, with the
restrictions stated in each doc comment.
-/

namespace YtDl

/-- Python `str.strip()` whitespace class, restricted to the ASCII
whitespace characters (the only ones the normalizer's inputs can carry
here). -/
def isPySpace (c : Char) : Bool :=
  c = ' ' || c = '\t' || c = '\n' || c = '\r' || c = '\x0b' || c = '\x0c'

/-- Python `str.strip()`: drop leading and trailing whitespace. -/
def pyStrip (l : List Char) : List Char :=
  ((l.dropWhile isPySpace).reverse.dropWhile isPySpace).reverse

/-- Python `str.strip(chars)` for a single character: drop that character
from both ends. -/
def stripChar (ch : Char) (l : List Char) : List Char :=
  ((l.dropWhile (· = ch)).reverse.dropWhile (· = ch)).reverse

/-- Split a list at the first character satisfying `p`: the first
component is everything strictly before it, the second component starts
with it (or is empty when no character satisfies `p`). -/
def splitAtFirst (p : Char → Bool) (l : List Char) : List Char × List Char :=
  (l.takeWhile (fun c => !p c), l.dropWhile (fun c => !p c))

/-- Python substring containment `needle in hay`. -/
def containsSub (needle : List Char) : List Char → Bool
  | [] => needle.isEmpty
  | c :: rest => needle.isPrefixOf (c :: rest) || containsSub needle rest

/-! ## Model of `urllib.parse.urlparse`

Faithful to CPython `urlsplit` on the URL shapes `normalize_watch_url`
feeds it: tab/CR/LF characters are removed, leading/trailing C0-control-
or-space characters stripped, the fragment split at the first `#`, a
syntactically valid scheme recognised before the first `:`, the netloc
taken after a leading `//` up to the first `/`, `?` or `#`, and the query
split at the first `?`.  The IPv6-bracket `ValueError` of CPython is
modelled by `bracketBad` (the caller catches it); Unicode NFKC netloc
checks do not arise on this input space and are not modelled. -/

structure UrlParts where
  scheme : List Char
  netloc : List Char
  path : List Char
  query : List Char
  deriving DecidableEq, Repr

def isSchemeChar (c : Char) : Bool :=
  c.isAlphanum || c = '+' || c = '-' || c = '.'

def isC0OrSpace (c : Char) : Bool := c.toNat ≤ 32

/-- Removal of tab/CR/LF anywhere in the URL. -/
def removeUnsafe (u : List Char) : List Char :=
  u.filter (fun c => !(c = '\t' || c = '\r' || c = '\n'))

/-- Stripping of leading/trailing C0-control-or-space characters. -/
def stripC0 (u : List Char) : List Char :=
  ((u.dropWhile isC0OrSpace).reverse.dropWhile isC0OrSpace).reverse

/-- Scheme recognition before the first `:`. -/
def splitScheme (u : List Char) : List Char × List Char :=
  match splitAtFirst (· = ':') u with
  | (pre, ':' :: post) =>
      if pre ≠ [] ∧ (pre.headD ' ').isAlpha ∧ pre.all isSchemeChar then
        (pre.map Char.toLower, post)
      else ([], u)
  | _ => ([], u)

/-- Netloc after a leading `//`, up to the first `/`, `?` or `#`. -/
def splitNetloc (u : List Char) : List Char × List Char :=
  match u with
  | '/' :: '/' :: tail => splitAtFirst (fun c => c = '/' || c = '?' || c = '#') tail
  | rest => ([], rest)

/-- Query after the first `?`. -/
def splitQuery (u : List Char) : List Char × List Char :=
  match splitAtFirst (· = '?') u with
  | (path, '?' :: q) => (path, q)
  | (path, _) => (path, [])

def urlsplit (u0 : List Char) : UrlParts :=
  let beforeHash := (splitAtFirst (· = '#') (stripC0 (removeUnsafe u0))).1
  let sr := splitScheme beforeHash
  let nr := splitNetloc sr.2
  let pq := splitQuery nr.2
  ⟨sr.1, nr.1, pq.1, pq.2⟩

/-- CPython `urlsplit` raises `ValueError` when the netloc has an
unmatched `[` or `]`; `normalize_watch_url` catches that and returns the
input unchanged. -/
def bracketBad (netloc : List Char) : Bool :=
  (netloc.contains '[' && !netloc.contains ']') ||
  (netloc.contains ']' && !netloc.contains '[')

/-! ## Model of `urllib.parse.parse_qs` (only the `v` lookup the code does)

`parse_qs(q)["v"][0]` with the default arguments: split the query on `&`,
skip empty chunks, skip chunks without `=`, skip chunks whose value is
empty (`keep_blank_values=False`), decode `+` to space and `%XX` percent
escapes in names and values, and return the value of the first pair named
`v`.  Percent decoding is modelled bytewise (single `%XX` → the character
with that code); the program's inputs never contain multi-byte UTF-8
escapes. -/

def hexVal (c : Char) : Option Nat :=
  if '0' ≤ c ∧ c ≤ '9' then some (c.toNat - 48)
  else if 'a' ≤ c ∧ c ≤ 'f' then some (c.toNat - 87)
  else if 'A' ≤ c ∧ c ≤ 'F' then some (c.toNat - 55)
  else none

def plusToSpace (l : List Char) : List Char :=
  l.map (fun c => if c = '+' then ' ' else c)

def pctDecode : List Char → List Char
  | [] => []
  | '%' :: a :: b :: rest =>
      match hexVal a, hexVal b with
      | some ha, some hb => Char.ofNat (16 * ha + hb) :: pctDecode rest
      | _, _ => '%' :: pctDecode (a :: b :: rest)
  | c :: rest => c :: pctDecode rest

/-- Python `str.split(sep)` for a single-character separator. -/
def pySplit (sep : Char) : List Char → List (List Char)
  | [] => [[]]
  | c :: rest =>
      if c = sep then [] :: pySplit sep rest
      else
        match pySplit sep rest with
        | [] => [[c]]
        | chunk :: more => (c :: chunk) :: more

def qsPairs (query : List Char) : List (List Char × List Char) :=
  (pySplit '&' query).filterMap (fun nv =>
    if nv = [] then none
    else
      match splitAtFirst (· = '=') nv with
      | (_, []) => none
      | (n, _ :: v) =>
          if v = [] then none
          else some (pctDecode (plusToSpace n), pctDecode (plusToSpace v)))

/-- `"v" in q and q["v"]` followed by `q["v"][0]`: the first parsed value
for key `v`, when one exists. -/
def qsGetV (query : List Char) : Option (List Char) :=
  (qsPairs query).findSome? (fun p => if p.1 = ['v'] then some p.2 else none)

/-! ## `normalize_watch_url` (src/app.py lines 121-142, identical in
src/backend_api.py lines 150-172) -/

def watchQueryPre : List Char := "https://www.youtube.com/watch?v=".data

def watchUrlOf (vid : List Char) : List Char := watchQueryPre ++ vid

/-- The branch structure of `normalize_watch_url` after URL parsing:
`url` is the original argument (returned by the `except Exception`
branch, which fires exactly when `urlsplit` would raise, i.e. on a
bracket-unbalanced netloc), `u` the stripped input, `p` its parse. -/
def dispatch (url u : List Char) (p : UrlParts) : Option (List Char) :=
  if bracketBad p.netloc then some url
  else if containsSub "youtu.be".data (p.netloc.map Char.toLower) then
    if (stripChar '/' p.path).takeWhile (· ≠ '/') = [] then none
    else some (watchUrlOf ((stripChar '/' p.path).takeWhile (· ≠ '/')))
  else if containsSub "youtube.com".data (p.netloc.map Char.toLower) then
    if "/shorts/".data.isPrefixOf p.path then
      some (watchUrlOf ((p.path.drop 8).takeWhile (· ≠ '/')))
    else
      match qsGetV p.query with
      | some v => some (watchUrlOf v)
      | none => some u
  else some u

/-- Embedding of `normalize_watch_url`. -/
def normalizeCore (url : List Char) : Option (List Char) :=
  if url = [] then none
  else dispatch url (pyStrip url) (urlsplit (pyStrip url))

def normalize_watch_url (url : String) : Option String :=
  (normalizeCore url.data).map List.asString

/-! ## Decimal rendering (Python `f"{n}"` / `f"{i:03d}"`) -/

/-- The decimal digit character for `d < 10`. -/
def digitChar (d : Nat) : Char := Char.ofNat (48 + d)

/-- Accumulator form of decimal rendering: prepend the digits of `n` to
`acc` (nothing for `n = 0`).  The first argument is structural fuel; any
fuel `≥ n` computes the digits (`natDecimalAux_fuel` below), and the
fuel-exhausted arm is unreachable from `natDecimal`. -/
def natDecimalAux : Nat → Nat → List Char → List Char
  | 0, _, acc => acc
  | fuel + 1, n, acc =>
      if n = 0 then acc
      else natDecimalAux fuel (n / 10) (digitChar (n % 10) :: acc)

/-- Python decimal rendering `f"{n}"`: most-significant digit first, no
leading zeros (except `"0"` itself). -/
def natDecimal (n : Nat) : List Char :=
  if n = 0 then ['0'] else natDecimalAux n n []

/-- Value of a most-significant-first digit string. -/
def digitsVal (l : List Char) : Nat :=
  l.foldl (fun a c => 10 * a + (c.toNat - 48)) 0

/-- Python `f"{i:03d}"`: pad the decimal rendering with leading zeros to
width 3. -/
def pad3 (l : List Char) : List Char := List.replicate (3 - l.length) '0' ++ l

/-! ## `height_label` / `parse_height_from_label`
(src/app.py lines 110-115, identical in src/backend_api.py) -/

/-- `height_label`: the named-resolution mapping, `"Best available"` for
`None`, else `f"{h}p"`. -/
def height_label : Option Nat → List Char
  | none => "Best available".data
  | some 4320 => "4320p (8K)".data
  | some 2160 => "2160p (4K)".data
  | some 1440 => "1440p (QHD)".data
  | some 1080 => "1080p (Full HD)".data
  | some 720 => "720p (HD)".data
  | some h => natDecimal h ++ ['p']

def heightLabelStr (h : Option Nat) : String := (height_label h).asString

def isDigitChar (c : Char) : Bool := '0' ≤ c && c ≤ '9'

/-- Take exactly `k` decimal digits off the front of `l`. -/
def grabDigits : Nat → List Char → Option (List Char × List Char)
  | 0, l => some ([], l)
  | _ + 1, [] => none
  | k + 1, c :: rest =>
      if isDigitChar c then (grabDigits k rest).map (fun p => (c :: p.1, p.2)) else none

/-- One attempt of the regex `(\d{3,4})p` anchored at the current
position: greedily try four digits followed by `p`, then backtrack to
three digits followed by `p`. -/
def tryHeightAt (l : List Char) : Option Nat :=
  match grabDigits 4 l with
  | some (ds, 'p' :: _) => some (digitsVal ds)
  | _ =>
      match grabDigits 3 l with
      | some (ds, 'p' :: _) => some (digitsVal ds)
      | _ => none

/-- `re.search(r"(\d{3,4})p", label)`: leftmost match, greedy digit
count, converted with `int`. -/
def searchHeight : List Char → Option Nat
  | [] => none
  | c :: rest =>
      match tryHeightAt (c :: rest) with
      | some h => some h
      | none => searchHeight rest

/-- `parse_height_from_label` (`label or ""` is the identity on actual
strings). -/
def parse_height_from_label (label : String) : Option Nat :=
  searchHeight label.data

/-! ## `safe_name` / `unique_path` (src/app.py lines 73-81, identical in
src/backend_api.py lines 102-116) -/

/-- The character class of `re.sub(r'[\\/:*?"<>|]+', "_", s)`. -/
def isBadNameChar (c : Char) : Bool :=
  c = '\\' || c = '/' || c = ':' || c = '*' || c = '?' || c = '"' ||
  c = '<' || c = '>' || c = '|'

/-- `re.sub(r'[\\/:*?"<>|]+', "_", s)`: each maximal run of bad
characters becomes a single underscore.  The boolean tracks whether the
previous character belonged to the current bad run. -/
def collapseBadGo : Bool → List Char → List Char
  | _, [] => []
  | prevBad, c :: rest =>
      if isBadNameChar c then
        if prevBad then collapseBadGo true rest else '_' :: collapseBadGo true rest
      else c :: collapseBadGo false rest

def collapseBad (l : List Char) : List Char := collapseBadGo false l

/-- `safe_name`: replace bad-character runs, then strip whitespace. -/
def safe_name (s : List Char) : List Char := pyStrip (collapseBad s)

/-- `os.path.join(dirpath, name)` on POSIX with a non-empty `dirpath`
not ending in a separator and a relative `name` (the shapes this program
produces). -/
def joinPath (dirpath name : List Char) : List Char := dirpath ++ '/' :: name

/-- `f"{base}.{ext}"` inside `unique_path`. -/
def plainName (base ext : List Char) : List Char := base ++ '.' :: ext

/-- `f"{base}-{i:03d}.{ext}"` inside `unique_path`. -/
def numberedName (base ext : List Char) (i : Nat) : List Char :=
  base ++ '-' :: (pad3 (natDecimal i) ++ '.' :: ext)

/-- The `while True` collision probe of `unique_path`, with enough fuel
that (by pigeonholing over the finitely many existing paths) a free
candidate is always reached; the fuel-exhausted arm is unreachable under
the fuel `unique_path` supplies. -/
def uniqueLoop (existing : List (List Char)) (dirpath base ext : List Char) :
    Nat → Nat → List Char
  | 0, i => joinPath dirpath (numberedName base ext i)
  | fuel + 1, i =>
      if joinPath dirpath (numberedName base ext i) ∈ existing then
        uniqueLoop existing dirpath base ext fuel (i + 1)
      else joinPath dirpath (numberedName base ext i)

/-- `unique_path(dirpath, base, ext)` against a directory state given as
the list of existing paths (`os.path.exists` = membership). -/
def unique_path (existing : List (List Char)) (dirpath base0 ext0 : List Char) :
    List Char :=
  if joinPath dirpath (plainName (safe_name base0) (ext0.dropWhile (· = '.'))) ∈ existing then
    uniqueLoop existing dirpath (safe_name base0) (ext0.dropWhile (· = '.'))
      (existing.length + 1) 1
  else joinPath dirpath (plainName (safe_name base0) (ext0.dropWhile (· = '.')))

/-! ## Format descriptors, `pick_stream_url` scoring and the resolution
probe (src/app.py lines 243-258 and 381-394; src/backend_api.py lines
243-259) -/

structure Fmt where
  vcodec : Option String := none
  height : Option Nat := none
  protocol : Option String := none
  ext : Option String := none
  deriving DecidableEq, Repr

/-- `f.get("vcodec") not in ("none", None)`. -/
def hasVcodec (f : Fmt) : Bool :=
  match f.vcodec with
  | none => false
  | some s => s ≠ "none"

/-- `f.get("height")` when truthy (present and non-zero). -/
def truthyHeight (f : Fmt) : Option Nat :=
  match f.height with
  | none => none
  | some h => if h = 0 then none else some h

def FALLBACK_HEIGHTS : List Nat := [4320, 2160, 1440, 1080, 720]

/-- The `score` closure of `pick_stream_url`: first component
`-(h if (not target_height or h <= target_height) else 10**6)`, second
the protocol/extension penalty.  (`f.get("height") or 0` makes a missing
height 0; a falsy `target_height` — `None` or `0` — disables the
ceiling.) -/
def scoreFmt (target : Option Nat) (f : Fmt) : Int × Nat :=
  let h := f.height.getD 0
  let penal : Nat :=
    if (f.protocol = some "https" ∨ f.protocol = some "http") ∧
       (f.ext = some "mp4" ∨ f.ext = some "webm") then 0 else 1
  let fits : Bool :=
    match target with
    | none => true
    | some t => if t = 0 then true else h ≤ t
  (-(if fits then (h : Int) else 10 ^ 6), penal)

/-- Strict lexicographic order on score keys, as Python tuple `<`. -/
def keyLt (a b : Int × Nat) : Bool :=
  a.1 < b.1 || (a.1 = b.1 && a.2 < b.2)

/-- The format `pick_stream_url` chooses: filter to formats with a video
codec, stable-sort by `score`, take the head.  The head of a stable sort
is the first format whose key is strictly smaller than every earlier
one, which this left fold computes. -/
def pickChosen (target : Option Nat) (fmts : List Fmt) : Option Fmt :=
  (fmts.filter hasVcodec).foldl
    (fun best f =>
      match best with
      | none => some f
      | some g => if keyLt (scoreFmt target f) (scoreFmt target g) then some f else some g)
    none

/-- Sorted insertion into a descending list (used to model Python
`sorted(set, reverse=True)`; on the deduplicated input the result is the
unique descending ordering, so any correct sort coincides). -/
def insertDesc (x : Nat) : List Nat → List Nat
  | [] => [x]
  | y :: ys => if x ≥ y then x :: y :: ys else y :: insertDesc x ys

def sortDesc (l : List Nat) : List Nat := l.foldr insertDesc []

/-- `sorted({f.get("height") for f in fmts if vcodec-ok and height}, reverse=True)`. -/
def probeHeights (fmts : List Fmt) : List Nat :=
  sortDesc ((fmts.filterMap (fun f => if hasVcodec f then truthyHeight f else none)).dedup)

/-- The `(video labels, image labels)` pair built from a height list. -/
def labelsPair (heights : List Nat) : List String × List String :=
  ("Best available (MP4)" :: heights.map (fun h => heightLabelStr (some h)),
   "Best available" :: heights.map (fun h => heightLabelStr (some h)))

def fallbackPair : List String × List String := labelsPair FALLBACK_HEIGHTS

/-- `probe_resolutions_labels`.  The network probe
(`YoutubeDL.extract_info`) is abstracted as the `probe` argument:
`none` models any exception raised during probing, `some fmts` a
successful probe returning the format list `fmts`. -/
def probe_resolutions_labels (url : String) (probe : Option (List Fmt)) :
    List String × List String :=
  if pyStrip url.data = [] then fallbackPair
  else
    match probe with
    | none => fallbackPair
    | some fmts =>
        let hs := probeHeights fmts
        labelsPair (if hs = [] then FALLBACK_HEIGHTS else hs)

/-! ## Event/action trace of `POST /api/screenshots`
(src/backend_api.py, `extract_screenshots`, lines 308-437)

The trace records, in program order, every event streamed to the caller
and every externally visible action (session-directory creation, the
extraction-library network call).  The run shape is abstracted by
`numFrames` (how many frames the OpenCV loop saves — 11 for a 100 s
video sampled every 10 s) and `expectedFrames` (the value of
`duration / request.interval`, restricted to inputs where that float
division is exact so that Python's `int(...)` truncation coincides with
natural division). -/

inductive ApiAct where
  | emitError (msg : String)
  | emitProgress (pct : Nat) (msg : String)
  | mkSessionDir
  | netCall
  deriving DecidableEq, Repr

/-- `min(90, 30 + int(len(paths) * 60 / max(1, duration / interval)))`
after the `k`-th saved frame. -/
def frameProgress (k n : Nat) : Nat := min 90 (30 + k * 60 / max 1 n)

def extract_screenshots_trace (urlBlank : Bool) (interval : ℚ)
    (numFrames expectedFrames : Nat) : List ApiAct :=
  if urlBlank then [.emitError "Please provide a valid YouTube URL"]
  else if interval ≤ 0 then [.emitError "Interval must be > 0 seconds"]
  else
    [.mkSessionDir,
     .emitProgress 0 "Starting screenshot extraction...",
     .emitProgress 15 "Downloading video...",
     .netCall,
     .emitProgress 25 "Video download completed, processing...",
     .emitProgress 30 "Video downloaded, extracting screenshots..."] ++
    (List.range numFrames).map (fun k =>
      .emitProgress (frameProgress (k + 1) expectedFrames) "Saved screenshot(s)...") ++
    [.emitProgress 85 "Creating ZIP file...",
     .emitProgress 90 "ZIP file created successfully",
     .emitProgress 100 "Done. Extracted screenshot(s).",
     .emitProgress 100 "Files ready for download."]

/-- The progress percentages of a trace, in emission order. -/
def tracePcts (tr : List ApiAct) : List Nat :=
  tr.filterMap (fun a =>
    match a with
    | .emitProgress p _ => some p
    | _ => none)

/-- A percentage sequence is non-decreasing (each adjacent pair is
ordered). -/
def nonDecreasingB : List Nat → Bool
  | [] => true
  | [_] => true
  | a :: b :: rest => a ≤ b && nonDecreasingB (b :: rest)

def nonDecreasing (l : List Nat) : Prop := nonDecreasingB l = true

instance (l : List Nat) : Decidable (nonDecreasing l) :=
  inferInstanceAs (Decidable (nonDecreasingB l = true))

/-! ## Event/action trace of the UI screenshot pipeline
(src/app.py, `run_screenshots_stream`, lines 474-545)

Events streamed to the caller are `status`/`statusCancelled`/
`statusError` (the `yield` statements, with the progress-slider value and
visibility); externally visible actions are session-directory creation,
the stream-URL probe, the spawned ffmpeg process and the yt-dlp download.
A frame-extraction phase is abstracted by a `LoopRun`: the cumulative
frame counts at which the generator yielded, and whether it ran to
completion, observed the cancellation token (raising `Cancelled`), or
raised another exception.  The file count inside the final "Done."
message is elided. -/

inductive UiAct where
  | status (pct : Nat) (visible : Bool) (msg : String)
  | statusCancelled
  | statusError (msg : String)
  | mkSessionDir
  | netProbe
  | spawnFFmpeg
  | netDownload
  deriving DecidableEq, Repr

inductive LoopRun where
  | completes (batches : List Nat)
  | cancelledAfter (batches : List Nat)
  | failsAfter (batches : List Nat) (err : String)
  deriving DecidableEq, Repr

/-- `min(100, max(1, int(len(paths) * 4)))`. -/
def framePct (n : Nat) : Nat := min 100 (max 1 (n * 4))

def frameEmits (batches : List Nat) : List UiAct :=
  batches.map (fun n => .status (framePct n) true "Saved screenshot(s)…")

/-- Tail after a frame loop that ran to completion: glob, zip, optional
copy, final yield. -/
def doneTail : List UiAct := [.status 100 false "Done. Extracted screenshot(s)."]

/-- The precise (OpenCV) extraction phase and its terminal handling; also
the body of the fast-mode fallback (`except Exception` arm), whose own
exceptions reach the outer `except Cancelled` / `except Exception`
handlers. -/
def opencvTail (run : LoopRun) : List UiAct :=
  match run with
  | .completes batches => frameEmits batches ++ doneTail
  | .cancelledAfter batches => frameEmits batches ++ [.statusCancelled]
  | .failsAfter batches err => frameEmits batches ++ [.statusError err]

def run_screenshots_stream_trace (urlBlank : Bool) (interval : Option ℚ)
    (modeFast ffmpegOk : Bool) (run fallback : LoopRun) : List UiAct :=
  if urlBlank then [.status 0 false "Please paste a valid YouTube link."]
  else if (match interval with | none => true | some q => decide (q ≤ 0)) then
    [.status 0 false "Interval must be > 0 sec."]
  else
    [.mkSessionDir, .status 0 true "Starting… 0%"] ++
    (if modeFast && ffmpegOk then
      [.netProbe, .spawnFFmpeg] ++
      (match run with
       | .completes batches => frameEmits batches ++ doneTail
       | .cancelledAfter batches =>
           frameEmits batches ++
           [.status 0 true "Stream extraction failed (Cancelled by user); falling back…",
            .netDownload] ++ opencvTail fallback
       | .failsAfter batches err =>
           frameEmits batches ++
           [.status 0 true ("Stream extraction failed (" ++ err ++ "); falling back…"),
            .netDownload] ++ opencvTail fallback)
     else
      .netDownload :: opencvTail run)

/-! ## Step traces of the download orchestrations (claim C5)

`_download_video_blocking` (src/app.py lines 308-328) and
`_download_audio_blocking` (lines 330-378) both begin with
`if not resolve_ffmpeg_exe(ffmpeg_path): raise RuntimeError("FFmpeg not
found. ...")` before building options and calling the extraction
library.  The API variant `generate_video` inside `download_video`
(src/backend_api.py lines 591-680) builds its options and calls the
extraction library without ever invoking `resolve_ffmpeg_exe`; likewise
`generate_audio` (lines 487-585).  `ffmpegOk` abstracts whether
`resolve_ffmpeg_exe` would succeed. -/

inductive DlStep where
  | resolveFFmpeg
  | fatalFFmpegMissing
  | buildOpts
  | netExtract
  | moveOutput
  deriving DecidableEq, Repr

def download_video_blocking_steps (ffmpegOk : Bool) : List DlStep :=
  if ffmpegOk then [.resolveFFmpeg, .buildOpts, .netExtract, .moveOutput]
  else [.resolveFFmpeg, .fatalFFmpegMissing]

def download_audio_blocking_steps (ffmpegOk : Bool) : List DlStep :=
  if ffmpegOk then [.resolveFFmpeg, .buildOpts, .netExtract, .moveOutput]
  else [.resolveFFmpeg, .fatalFFmpegMissing]

def api_generate_video_steps (_ffmpegOk : Bool) : List DlStep :=
  [.buildOpts, .netExtract, .moveOutput]

def api_generate_audio_steps (_ffmpegOk : Bool) : List DlStep :=
  [.buildOpts, .netExtract, .moveOutput]

/-- A step trace fails with the ffmpeg fatal error strictly before any
extraction-library (network) call. -/
def fatalBeforeNetwork (tr : List DlStep) : Prop :=
  DlStep.fatalFFmpegMissing ∈ tr.takeWhile (fun s => s ≠ DlStep.netExtract)

instance (tr : List DlStep) : Decidable (fatalBeforeNetwork tr) :=
  inferInstanceAs (Decidable (DlStep.fatalFFmpegMissing ∈ tr.takeWhile (fun s => s ≠ DlStep.netExtract)))

/-- A 720p https/mp4 format that fits a 1080p ceiling. -/
def fmt720 : Fmt :=
  { vcodec := some "avc1", height := some 720, protocol := some "https", ext := some "mp4" }

/-- A 1440p https/mp4 format that exceeds a 1080p ceiling. -/
def fmt1440 : Fmt :=
  { vcodec := some "avc1", height := some 1440, protocol := some "https", ext := some "mp4" }

/-- A well-formed video-id character, as in actual YouTube ids:
ASCII digit (48-57), upper-case letter (65-90), lower-case letter
(97-122), `-` (45) or `_` (95). -/
def isSafeIdChar (c : Char) : Bool :=
  (48 ≤ c.toNat && c.toNat ≤ 57) || (65 ≤ c.toNat && c.toNat ≤ 90) ||
  (97 ≤ c.toNat && c.toNat ≤ 122) || c = '-' || c = '_'

/-- A well-formed (non-empty) video id string. -/
def SafeId (vid : List Char) : Prop :=
  vid ≠ [] ∧ ∀ c ∈ vid, isSafeIdChar c = true

instance (vid : List Char) : Decidable (SafeId vid) :=
  inferInstanceAs (Decidable (vid ≠ [] ∧ ∀ c ∈ vid, isSafeIdChar c = true))

/-! # Theorems -/

/-! ## Generic list lemmas for the URL-parsing proofs -/

theorem takeWhile_all {α : Type} {p : α → Bool} :
    ∀ {l : List α}, (∀ c ∈ l, p c = true) → l.takeWhile p = l := by
  intro l
  induction l with
  | nil => intro; rfl
  | cons c rest ih =>
      intro h
      rw [List.takeWhile_cons, if_pos (h c (by simp)), ih fun x hx => h x (by simp [hx])]

theorem dropWhile_none {α : Type} {p : α → Bool} :
    ∀ {l : List α}, (∀ c ∈ l, p c = false) → l.dropWhile p = l := by
  intro l
  induction l with
  | nil => intro; rfl
  | cons c rest ih =>
      intro h
      rw [List.dropWhile_cons]
      simp [h c (by simp)]

theorem dropWhile_all {α : Type} {p : α → Bool} :
    ∀ {l : List α}, (∀ c ∈ l, p c = true) → l.dropWhile p = [] := by
  intro l
  induction l with
  | nil => intro; rfl
  | cons c rest ih =>
      intro h
      rw [List.dropWhile_cons]
      simp only [h c (by simp), if_true]
      exact ih fun x hx => h x (by simp [hx])

theorem takeWhile_append_stop {α : Type} {p : α → Bool} :
    ∀ {l1 : List α} (l2 : List α), l1.dropWhile p ≠ [] →
      (l1 ++ l2).takeWhile p = l1.takeWhile p := by
  intro l1
  induction l1 with
  | nil => intro l2 h; exact absurd rfl h
  | cons c rest ih =>
      intro l2 h
      rw [List.cons_append, List.takeWhile_cons, List.takeWhile_cons]
      rw [List.dropWhile_cons] at h
      by_cases hc : p c = true
      · simp only [hc, if_true]
        rw [ih l2 (by simpa [hc] using h)]
      · simp [hc]

theorem dropWhile_append_stop {α : Type} {p : α → Bool} :
    ∀ {l1 : List α} (l2 : List α), l1.dropWhile p ≠ [] →
      (l1 ++ l2).dropWhile p = l1.dropWhile p ++ l2 := by
  intro l1
  induction l1 with
  | nil => intro l2 h; exact absurd rfl h
  | cons c rest ih =>
      intro l2 h
      rw [List.dropWhile_cons] at h
      rw [List.cons_append, List.dropWhile_cons, List.dropWhile_cons]
      by_cases hc : p c = true
      · simp only [hc, if_true]
        simp only [hc, if_true] at h
        exact ih l2 h
      · simp [hc]

theorem strip_eq_self {p : Char → Bool} {l : List Char}
    (h : ∀ c ∈ l, p c = false) :
    ((l.dropWhile p).reverse.dropWhile p).reverse = l := by
  rw [dropWhile_none h, dropWhile_none (fun c hc => h c (List.mem_reverse.mp hc)),
      List.reverse_reverse]

theorem isPrefixOf_append_self : ∀ (l t : List Char), l.isPrefixOf (l ++ t) = true := by
  intro l t
  induction l with
  | nil => simp [List.isPrefixOf]
  | cons c rest ih => simp [List.isPrefixOf, ih]

theorem pySplit_no_sep {sep : Char} :
    ∀ {l : List Char}, (∀ c ∈ l, c ≠ sep) → pySplit sep l = [l] := by
  intro l
  induction l with
  | nil => intro; rfl
  | cons c rest ih =>
      intro h
      unfold pySplit
      rw [if_neg (h c (by simp)), ih fun x hx => h x (by simp [hx])]

theorem plusToSpace_no_plus : ∀ {l : List Char}, (∀ c ∈ l, c ≠ '+') →
    plusToSpace l = l := by
  intro l
  induction l with
  | nil => intro; rfl
  | cons c rest ih =>
      intro h
      have hrest := ih fun x hx => h x (by simp [hx])
      unfold plusToSpace at hrest ⊢
      rw [List.map_cons, if_neg (h c (by simp)), hrest]

theorem pctDecode_cons_ne {c : Char} (hc : c ≠ '%') :
    ∀ l, pctDecode (c :: l) = c :: pctDecode l := by
  intro l
  rcases l with _ | ⟨a, l2⟩
  · simp [pctDecode]
  · rcases l2 with _ | ⟨b, l3⟩
    · simp [pctDecode]
    · simp [pctDecode, hc]

theorem pctDecode_no_pct : ∀ {l : List Char}, (∀ c ∈ l, c ≠ '%') → pctDecode l = l := by
  intro l
  induction l with
  | nil => intro; rfl
  | cons c rest ih =>
      intro h
      rw [pctDecode_cons_ne (h c (by simp)), ih fun x hx => h x (by simp [hx])]

/-! ## Safe-id character facts -/

theorem safe_toNat {c : Char} (h : isSafeIdChar c = true) :
    (48 ≤ c.toNat ∧ c.toNat ≤ 57) ∨ (65 ≤ c.toNat ∧ c.toNat ≤ 90) ∨
    (97 ≤ c.toNat ∧ c.toNat ≤ 122) ∨ c.toNat = 45 ∨ c.toNat = 95 := by
  simp only [isSafeIdChar, Bool.or_eq_true, Bool.and_eq_true, decide_eq_true_eq] at h
  rcases h with (((h | h) | h) | h) | h
  · exact Or.inl h
  · exact Or.inr (Or.inl h)
  · exact Or.inr (Or.inr (Or.inl h))
  · subst h; exact Or.inr (Or.inr (Or.inr (Or.inl rfl)))
  · subst h; exact Or.inr (Or.inr (Or.inr (Or.inr rfl)))

/-- A safe-id character is none of the URL metacharacters (everything
with code below 45, plus `.` `/` and the range 58-64, which covers
`:` `;` `<` `=` `>` `?` `@`). -/
theorem safe_ne {c : Char} (h : isSafeIdChar c = true) (x : Char)
    (hx : x.toNat < 45 ∨ x.toNat = 46 ∨ x.toNat = 47 ∨
          (58 ≤ x.toNat ∧ x.toNat ≤ 64)) : c ≠ x := by
  intro hcx
  subst hcx
  have := safe_toNat h
  omega

theorem safe_not_pyspace {c : Char} (h : isSafeIdChar c = true) :
    isPySpace c = false := by
  have h1 := safe_ne h ' ' (by decide)
  have h2 := safe_ne h '\t' (by decide)
  have h3 := safe_ne h '\n' (by decide)
  have h4 := safe_ne h '\r' (by decide)
  have h5 := safe_ne h '\x0b' (by decide)
  have h6 := safe_ne h '\x0c' (by decide)
  simp [isPySpace, h1, h2, h3, h4, h5, h6]

theorem safe_not_c0 {c : Char} (h : isSafeIdChar c = true) :
    isC0OrSpace c = false := by
  have := safe_toNat h
  simp only [isC0OrSpace, decide_eq_false_iff_not]
  omega

theorem safe_keep_unsafe {c : Char} (h : isSafeIdChar c = true) :
    (!(c = '\t' || c = '\r' || c = '\n')) = true := by
  have h2 := safe_ne h '\t' (by decide)
  have h3 := safe_ne h '\r' (by decide)
  have h4 := safe_ne h '\n' (by decide)
  simp [h2, h3, h4]

/-! ## `urlsplit` on the three safe URL shapes -/

theorem splitAtFirst_append_stop {p : Char → Bool} {l1 : List Char} (l2 : List Char)
    (h : l1.dropWhile (fun c => !p c) ≠ []) :
    splitAtFirst p (l1 ++ l2) =
      (l1.takeWhile (fun c => !p c), l1.dropWhile (fun c => !p c) ++ l2) := by
  unfold splitAtFirst
  rw [takeWhile_append_stop l2 h, dropWhile_append_stop l2 h]

theorem splitAtFirst_none {p : Char → Bool} {l : List Char}
    (h : ∀ c ∈ l, (!p c) = true) :
    splitAtFirst p l = (l, []) := by
  unfold splitAtFirst
  rw [takeWhile_all h, dropWhile_all h]

/-- Front of the `urlsplit` pipeline on a clean string: tab/CR/LF
removal, C0 stripping and the fragment split all leave `pre ++ id`
unchanged. -/
theorem beforeHash_clean (pre id : List Char)
    (hkeep : ∀ c ∈ pre ++ id, (!(c = '\t' || c = '\r' || c = '\n')) = true)
    (hc0 : ∀ c ∈ pre ++ id, isC0OrSpace c = false)
    (hhash : ∀ c ∈ pre ++ id, (!(c = '#')) = true) :
    (splitAtFirst (· = '#') (stripC0 (removeUnsafe (pre ++ id)))).1 = pre ++ id := by
  rw [show removeUnsafe (pre ++ id) = pre ++ id from List.filter_eq_self.mpr hkeep]
  rw [show stripC0 (pre ++ id) = pre ++ id from strip_eq_self hc0]
  exact takeWhile_all hhash

theorem hid_keep {id : List Char} (hs : ∀ c ∈ id, isSafeIdChar c = true) :
    ∀ c ∈ id, (!(c = '\t' || c = '\r' || c = '\n')) = true :=
  fun c hc => safe_keep_unsafe (hs c hc)

theorem hid_c0 {id : List Char} (hs : ∀ c ∈ id, isSafeIdChar c = true) :
    ∀ c ∈ id, isC0OrSpace c = false :=
  fun c hc => safe_not_c0 (hs c hc)

theorem hid_hash {id : List Char} (hs : ∀ c ∈ id, isSafeIdChar c = true) :
    ∀ c ∈ id, (!(c = '#')) = true := by
  intro c hc
  simp [safe_ne (hs c hc) '#' (by decide)]

theorem urlsplit_watch {id : List Char} (hs : ∀ c ∈ id, isSafeIdChar c = true) :
    urlsplit ("https://www.youtube.com/watch?v=".data ++ id) =
      ⟨"https".data, "www.youtube.com".data, "/watch".data, 'v' :: '=' :: id⟩ := by
  have hbh := beforeHash_clean "https://www.youtube.com/watch?v=".data id
    (List.forall_mem_append.mpr ⟨by decide, hid_keep hs⟩)
    (List.forall_mem_append.mpr ⟨by decide, hid_c0 hs⟩)
    (List.forall_mem_append.mpr ⟨by decide, hid_hash hs⟩)
  have hsch : splitScheme ("https://www.youtube.com/watch?v=".data ++ id) =
      ("https".data, "//www.youtube.com/watch?v=".data ++ id) := by
    unfold splitScheme
    rw [splitAtFirst_append_stop id (by decide)]
    rw [show "https://www.youtube.com/watch?v=".data.takeWhile
          (fun c => !(c = ':')) = "https".data from by decide]
    rw [show "https://www.youtube.com/watch?v=".data.dropWhile
          (fun c => !(c = ':')) = ':' :: "//www.youtube.com/watch?v=".data from by decide]
    rw [List.cons_append]
    rfl
  have hnet : splitNetloc ("//www.youtube.com/watch?v=".data ++ id) =
      ("www.youtube.com".data, "/watch?v=".data ++ id) := by
    show splitAtFirst (fun c => c = '/' || c = '?' || c = '#')
        ("www.youtube.com/watch?v=".data ++ id) = _
    rw [splitAtFirst_append_stop id (by decide)]
    rw [show "www.youtube.com/watch?v=".data.takeWhile
          (fun c => !(c = '/' || c = '?' || c = '#')) = "www.youtube.com".data from by decide]
    rw [show "www.youtube.com/watch?v=".data.dropWhile
          (fun c => !(c = '/' || c = '?' || c = '#')) = "/watch?v=".data from by decide]
  have hq : splitQuery ("/watch?v=".data ++ id) =
      ("/watch".data, 'v' :: '=' :: id) := by
    unfold splitQuery
    rw [splitAtFirst_append_stop id (by decide)]
    rw [show "/watch?v=".data.takeWhile (fun c => !(c = '?')) = "/watch".data from by decide]
    rw [show "/watch?v=".data.dropWhile (fun c => !(c = '?')) = '?' :: "v=".data from by decide]
    rw [List.cons_append]
    rfl
  simp only [urlsplit]
  rw [hbh, hsch, hnet, hq]

theorem urlsplit_youtu_be {id : List Char} (hs : ∀ c ∈ id, isSafeIdChar c = true) :
    urlsplit ("https://youtu.be/".data ++ id) =
      ⟨"https".data, "youtu.be".data, '/' :: id, []⟩ := by
  have hbh := beforeHash_clean "https://youtu.be/".data id
    (List.forall_mem_append.mpr ⟨by decide, hid_keep hs⟩)
    (List.forall_mem_append.mpr ⟨by decide, hid_c0 hs⟩)
    (List.forall_mem_append.mpr ⟨by decide, hid_hash hs⟩)
  have hsch : splitScheme ("https://youtu.be/".data ++ id) =
      ("https".data, "//youtu.be/".data ++ id) := by
    unfold splitScheme
    rw [splitAtFirst_append_stop id (by decide)]
    rw [show "https://youtu.be/".data.takeWhile
          (fun c => !(c = ':')) = "https".data from by decide]
    rw [show "https://youtu.be/".data.dropWhile
          (fun c => !(c = ':')) = ':' :: "//youtu.be/".data from by decide]
    rw [List.cons_append]
    rfl
  have hnet : splitNetloc ("//youtu.be/".data ++ id) =
      ("youtu.be".data, '/' :: id) := by
    show splitAtFirst (fun c => c = '/' || c = '?' || c = '#')
        ("youtu.be/".data ++ id) = _
    rw [splitAtFirst_append_stop id (by decide)]
    rw [show "youtu.be/".data.takeWhile
          (fun c => !(c = '/' || c = '?' || c = '#')) = "youtu.be".data from by decide]
    rw [show "youtu.be/".data.dropWhile
          (fun c => !(c = '/' || c = '?' || c = '#')) = ['/'] from by decide]
    rfl
  have hq : splitQuery ('/' :: id) = ('/' :: id, []) := by
    unfold splitQuery
    rw [splitAtFirst_none ?hall]
    case hall =>
      intro c hc
      rcases List.mem_cons.mp hc with rfl | hc
      · decide
      · simp [safe_ne (hs c hc) '?' (by decide)]
  simp only [urlsplit]
  rw [hbh, hsch, hnet, hq]

theorem urlsplit_shorts {id : List Char} (hs : ∀ c ∈ id, isSafeIdChar c = true) :
    urlsplit ("https://www.youtube.com/shorts/".data ++ id) =
      ⟨"https".data, "www.youtube.com".data, "/shorts/".data ++ id, []⟩ := by
  have hbh := beforeHash_clean "https://www.youtube.com/shorts/".data id
    (List.forall_mem_append.mpr ⟨by decide, hid_keep hs⟩)
    (List.forall_mem_append.mpr ⟨by decide, hid_c0 hs⟩)
    (List.forall_mem_append.mpr ⟨by decide, hid_hash hs⟩)
  have hsch : splitScheme ("https://www.youtube.com/shorts/".data ++ id) =
      ("https".data, "//www.youtube.com/shorts/".data ++ id) := by
    unfold splitScheme
    rw [splitAtFirst_append_stop id (by decide)]
    rw [show "https://www.youtube.com/shorts/".data.takeWhile
          (fun c => !(c = ':')) = "https".data from by decide]
    rw [show "https://www.youtube.com/shorts/".data.dropWhile
          (fun c => !(c = ':')) = ':' :: "//www.youtube.com/shorts/".data from by decide]
    rw [List.cons_append]
    rfl
  have hnet : splitNetloc ("//www.youtube.com/shorts/".data ++ id) =
      ("www.youtube.com".data, "/shorts/".data ++ id) := by
    show splitAtFirst (fun c => c = '/' || c = '?' || c = '#')
        ("www.youtube.com/shorts/".data ++ id) = _
    rw [splitAtFirst_append_stop id (by decide)]
    rw [show "www.youtube.com/shorts/".data.takeWhile
          (fun c => !(c = '/' || c = '?' || c = '#')) = "www.youtube.com".data from by decide]
    rw [show "www.youtube.com/shorts/".data.dropWhile
          (fun c => !(c = '/' || c = '?' || c = '#')) = "/shorts/".data from by decide]
  have hq : splitQuery ("/shorts/".data ++ id) = ("/shorts/".data ++ id, []) := by
    unfold splitQuery
    rw [splitAtFirst_none ?hall]
    case hall =>
      refine List.forall_mem_append.mpr ⟨by decide, ?_⟩
      intro c hc
      simp [safe_ne (hs c hc) '?' (by decide)]
  simp only [urlsplit]
  rw [hbh, hsch, hnet, hq]

/-! ## `normalize_watch_url` on the three safe URL shapes -/

theorem qsGetV_safe {id : List Char} (hne : id ≠ [])
    (hs : ∀ c ∈ id, isSafeIdChar c = true) :
    qsGetV ('v' :: '=' :: id) = some id := by
  have hplus : plusToSpace id = id :=
    plusToSpace_no_plus fun c hc => safe_ne (hs c hc) '+' (by decide)
  have hpct : pctDecode id = id :=
    pctDecode_no_pct fun c hc => safe_ne (hs c hc) '%' (by decide)
  have hsplit : pySplit '&' ('v' :: '=' :: id) = ['v' :: '=' :: id] := by
    apply pySplit_no_sep
    intro c hc
    rcases List.mem_cons.mp hc with rfl | hc
    · decide
    rcases List.mem_cons.mp hc with rfl | hc
    · decide
    · exact safe_ne (hs c hc) '&' (by decide)
  have hpairs : qsPairs ('v' :: '=' :: id) = [(['v'], id)] := by
    unfold qsPairs
    rw [hsplit]
    simp only [List.filterMap_cons, List.filterMap_nil]
    rw [show splitAtFirst (· = '=') ('v' :: '=' :: id) = (['v'], '=' :: id) from rfl]
    simp [hne, hplus, hpct, show pctDecode (plusToSpace ['v']) = ['v'] from by decide]
  unfold qsGetV
  rw [hpairs]
  simp

theorem normalize_watch_form {id : List Char} (hid : SafeId id) :
    normalizeCore ("https://www.youtube.com/watch?v=".data ++ id) =
      some (watchUrlOf id) := by
  obtain ⟨hne, hs⟩ := hid
  have hstrip : pyStrip ("https://www.youtube.com/watch?v=".data ++ id) =
      "https://www.youtube.com/watch?v=".data ++ id :=
    strip_eq_self (List.forall_mem_append.mpr ⟨by decide,
      fun c hc => safe_not_pyspace (hs c hc)⟩)
  unfold normalizeCore
  rw [if_neg (show ¬("https://www.youtube.com/watch?v=".data ++ id = []) from by simp)]
  rw [hstrip, urlsplit_watch hs]
  unfold dispatch
  simp [qsGetV_safe hne hs, bracketBad, containsSub, List.isPrefixOf]

theorem normalize_shortlink_form {id : List Char} (hid : SafeId id) :
    normalizeCore ("https://youtu.be/".data ++ id) = some (watchUrlOf id) := by
  obtain ⟨hne, hs⟩ := hid
  have hstrip : pyStrip ("https://youtu.be/".data ++ id) =
      "https://youtu.be/".data ++ id :=
    strip_eq_self (List.forall_mem_append.mpr ⟨by decide,
      fun c hc => safe_not_pyspace (hs c hc)⟩)
  have h1 : id.dropWhile (· = '/') = id :=
    dropWhile_none fun c hc => by simp [safe_ne (hs c hc) '/' (by decide)]
  have h2 : id.reverse.dropWhile (· = '/') = id.reverse :=
    dropWhile_none fun c hc => by
      simp [safe_ne (hs c (List.mem_reverse.mp hc)) '/' (by decide)]
  have h0 : ('/' :: id).dropWhile (· = '/') = id := by
    rw [List.dropWhile_cons]
    simp [h1]
  have hstrip2 : stripChar '/' ('/' :: id) = id := by
    unfold stripChar
    rw [h0, h2, List.reverse_reverse]
  have hvid : List.takeWhile (fun c => !(c = '/')) id = id :=
    takeWhile_all fun c hc => by simp [safe_ne (hs c hc) '/' (by decide)]
  unfold normalizeCore
  rw [if_neg (show ¬("https://youtu.be/".data ++ id = []) from by simp)]
  rw [hstrip, urlsplit_youtu_be hs]
  unfold dispatch
  simp [bracketBad, containsSub, List.isPrefixOf, hstrip2, hvid, hne]

theorem normalize_shorts_form {id : List Char} (hid : SafeId id) :
    normalizeCore ("https://www.youtube.com/shorts/".data ++ id) =
      some (watchUrlOf id) := by
  obtain ⟨hne, hs⟩ := hid
  have hstrip : pyStrip ("https://www.youtube.com/shorts/".data ++ id) =
      "https://www.youtube.com/shorts/".data ++ id :=
    strip_eq_self (List.forall_mem_append.mpr ⟨by decide,
      fun c hc => safe_not_pyspace (hs c hc)⟩)
  have hdrop : ("/shorts/".data ++ id).drop 8 = id := by
    rw [show (8 : Nat) = "/shorts/".data.length from rfl]
    exact List.drop_left _ _
  have htake : List.takeWhile (fun c => !(c = '/')) id = id :=
    takeWhile_all fun c hc => by simp [safe_ne (hs c hc) '/' (by decide)]
  unfold normalizeCore
  rw [if_neg (show ¬("https://www.youtube.com/shorts/".data ++ id = []) from by simp)]
  rw [hstrip, urlsplit_shorts hs]
  unfold dispatch
  simp [bracketBad, containsSub, isPrefixOf_append_self, hdrop, htake]

theorem asString_data (s : String) : s.data.asString = s := rfl

theorem watchUrlOf_asString (vid : String) :
    (watchUrlOf vid.data).asString = "https://www.youtube.com/watch?v=" ++ vid := by
  unfold watchUrlOf watchQueryPre
  rw [← String.data_append "https://www.youtube.com/watch?v=" vid]
  exact asString_data _

/-- C3: for every well-formed (non-empty, id-safe-character) video id
string, the short-link, shorts and query-parameter URL forms all
normalize to the identical canonical watch URL
`https://www.youtube.com/watch?v=<id>`. -/
theorem normalizer_canonicalizes_all_forms (vid : String) (h : SafeId vid.data) :
    normalize_watch_url ("https://youtu.be/" ++ vid) =
      some ("https://www.youtube.com/watch?v=" ++ vid) ∧
    normalize_watch_url ("https://www.youtube.com/shorts/" ++ vid) =
      some ("https://www.youtube.com/watch?v=" ++ vid) ∧
    normalize_watch_url ("https://www.youtube.com/watch?v=" ++ vid) =
      some ("https://www.youtube.com/watch?v=" ++ vid) := by
  refine ⟨?_, ?_, ?_⟩
  · unfold normalize_watch_url
    rw [String.data_append "https://youtu.be/" vid, normalize_shortlink_form h,
        Option.map_some']
    rw [watchUrlOf_asString]
  · unfold normalize_watch_url
    rw [String.data_append "https://www.youtube.com/shorts/" vid,
        normalize_shorts_form h, Option.map_some']
    rw [watchUrlOf_asString]
  · unfold normalize_watch_url
    rw [String.data_append "https://www.youtube.com/watch?v=" vid,
        normalize_watch_form h, Option.map_some']
    rw [watchUrlOf_asString]

/-- Witness for C3 at the concrete id `abc123`, giving the spec's
scenario `normalize_watch_url("https://youtu.be/abc123") =
"https://www.youtube.com/watch?v=abc123"`. -/
theorem normalizer_canonicalizes_witness :
    SafeId "abc123".data ∧
    normalize_watch_url "https://youtu.be/abc123" =
      some "https://www.youtube.com/watch?v=abc123" ∧
    normalize_watch_url "https://www.youtube.com/shorts/abc123" =
      some "https://www.youtube.com/watch?v=abc123" ∧
    normalize_watch_url "https://www.youtube.com/watch?v=abc123" =
      some "https://www.youtube.com/watch?v=abc123" :=
  ⟨by decide,
   (normalizer_canonicalizes_all_forms "abc123" (by decide)).1,
   (normalizer_canonicalizes_all_forms "abc123" (by decide)).2.1,
   (normalizer_canonicalizes_all_forms "abc123" (by decide)).2.2⟩

/-- C9 (amended): the normalizer is idempotent on every output that is
either a pass-through of its input or a canonical watch URL whose id is
a well-formed video id.  (The unamended claim fails when the embedded
id carries query metacharacters such as `&`; see the counterexample.) -/
theorem normalize_idempotent_on_safe_outputs (u v : String)
    (h : normalize_watch_url u = some v)
    (hshape : v = u ∨ ∃ vid : String, SafeId vid.data ∧
        v = "https://www.youtube.com/watch?v=" ++ vid) :
    normalize_watch_url v = some v := by
  rcases hshape with rfl | ⟨vid, hvid, rfl⟩
  · exact h
  · unfold normalize_watch_url
    rw [String.data_append "https://www.youtube.com/watch?v=" vid,
        normalize_watch_form hvid, Option.map_some']
    rw [watchUrlOf_asString]

/-- Witness for C9 at the concrete input `https://youtu.be/xyz`. -/
theorem normalize_idempotent_witness :
    normalize_watch_url "https://youtu.be/xyz" =
      some "https://www.youtube.com/watch?v=xyz" ∧
    normalize_watch_url "https://www.youtube.com/watch?v=xyz" =
      some "https://www.youtube.com/watch?v=xyz" :=
  ⟨by decide,
   normalize_idempotent_on_safe_outputs "https://youtu.be/xyz"
     "https://www.youtube.com/watch?v=xyz"
     (by decide)
     (Or.inr ⟨"xyz", by decide, rfl⟩)⟩

/-! ## Decimal-rendering lemmas -/

theorem natDecimalAux_zero (f : Nat) (acc : List Char) :
    natDecimalAux f 0 acc = acc := by
  cases f <;> simp [natDecimalAux]

theorem natDecimalAux_fuel (n : Nat) :
    ∀ f1 f2 acc, n ≤ f1 → n ≤ f2 →
      natDecimalAux f1 n acc = natDecimalAux f2 n acc := by
  induction n using Nat.strong_induction_on with
  | _ n ih =>
    intro f1 f2 acc h1 h2
    rcases n with _ | m
    · rw [natDecimalAux_zero, natDecimalAux_zero]
    · rcases f1 with _ | a
      · omega
      rcases f2 with _ | b
      · omega
      simp only [natDecimalAux, if_neg (Nat.succ_ne_zero m)]
      exact ih ((m + 1) / 10) (by omega) a b _ (by omega) (by omega)

theorem natDecimalAux_acc (n : Nat) :
    ∀ f acc, n ≤ f → natDecimalAux f n acc = natDecimalAux f n [] ++ acc := by
  induction n using Nat.strong_induction_on with
  | _ n ih =>
    intro f acc h
    rcases n with _ | m
    · rw [natDecimalAux_zero, natDecimalAux_zero]; rfl
    · rcases f with _ | g
      · omega
      simp only [natDecimalAux, if_neg (Nat.succ_ne_zero m)]
      rw [ih ((m + 1) / 10) (by omega) g (digitChar ((m + 1) % 10) :: acc) (by omega),
          ih ((m + 1) / 10) (by omega) g [digitChar ((m + 1) % 10)] (by omega)]
      simp

theorem natDecimalAux_step (n : Nat) (f : Nat) (hn : 0 < n) (hf : n ≤ f) :
    natDecimalAux f n [] = natDecimalAux f (n / 10) [] ++ [digitChar (n % 10)] := by
  rcases n with _ | m
  · omega
  rcases f with _ | g
  · omega
  have h1 : natDecimalAux (g + 1) (m + 1) [] =
      natDecimalAux g ((m + 1) / 10) [digitChar ((m + 1) % 10)] := by
    simp [natDecimalAux]
  rw [h1, natDecimalAux_acc ((m + 1) / 10) g [digitChar ((m + 1) % 10)] (by omega),
      natDecimalAux_fuel ((m + 1) / 10) g (g + 1) [] (by omega) (by omega)]

theorem digitChar_toNat (d : Nat) (h : d < 10) : (digitChar d).toNat - 48 = d := by
  interval_cases d <;> decide

theorem isDigitChar_digitChar (d : Nat) (h : d < 10) :
    isDigitChar (digitChar d) = true := by
  interval_cases d <;> decide

theorem digitsVal_append_singleton (l : List Char) (c : Char) :
    digitsVal (l ++ [c]) = 10 * digitsVal l + (c.toNat - 48) := by
  simp [digitsVal, List.foldl_append]

theorem digitsVal_natDecimalAux (n : Nat) :
    ∀ f, n ≤ f → digitsVal (natDecimalAux f n []) = n := by
  induction n using Nat.strong_induction_on with
  | _ n ih =>
    intro f h
    rcases Nat.eq_zero_or_pos n with h0 | h0
    · subst h0; rw [natDecimalAux_zero]; rfl
    · rw [natDecimalAux_step n f h0 h, digitsVal_append_singleton,
          ih (n / 10) (Nat.div_lt_self h0 (by omega)) f (by omega),
          digitChar_toNat (n % 10) (Nat.mod_lt n (by omega))]
      omega

theorem digitsVal_natDecimal (n : Nat) : digitsVal (natDecimal n) = n := by
  unfold natDecimal
  split
  · subst ‹n = 0›; rfl
  · exact digitsVal_natDecimalAux n n le_rfl

theorem natDecimalAux_digits (n : Nat) :
    ∀ f, n ≤ f → ∀ c ∈ natDecimalAux f n [], isDigitChar c = true := by
  induction n using Nat.strong_induction_on with
  | _ n ih =>
    intro f h c hc
    rcases Nat.eq_zero_or_pos n with h0 | h0
    · subst h0; rw [natDecimalAux_zero] at hc; simp at hc
    · rw [natDecimalAux_step n f h0 h] at hc
      rcases List.mem_append.mp hc with h1 | h1
      · exact ih (n / 10) (Nat.div_lt_self h0 (by omega)) f (by omega) c h1
      · simp at h1
        subst h1
        exact isDigitChar_digitChar (n % 10) (Nat.mod_lt n (by omega))

theorem natDecimal_digits (n : Nat) : ∀ c ∈ natDecimal n, isDigitChar c = true := by
  unfold natDecimal
  split
  · intro c hc; simp at hc; subst hc; decide
  · exact natDecimalAux_digits n n le_rfl

theorem length_natDecimalAux_step (n f : Nat) (hn : 0 < n) (hf : n ≤ f) :
    (natDecimalAux f n []).length = (natDecimalAux f (n / 10) []).length + 1 := by
  rw [natDecimalAux_step n f hn hf]; simp

theorem length_natDecimal_three (n : Nat) (h1 : 100 ≤ n) (h2 : n ≤ 999) :
    (natDecimal n).length = 3 := by
  unfold natDecimal
  rw [if_neg (by omega)]
  rw [length_natDecimalAux_step n n (by omega) le_rfl,
      length_natDecimalAux_step (n / 10) n (by omega) (by omega),
      length_natDecimalAux_step (n / 10 / 10) n (by omega) (by omega)]
  have : n / 10 / 10 / 10 = 0 := by omega
  rw [this, natDecimalAux_zero]
  rfl

theorem length_natDecimal_four (n : Nat) (h1 : 1000 ≤ n) (h2 : n ≤ 9999) :
    (natDecimal n).length = 4 := by
  unfold natDecimal
  rw [if_neg (by omega)]
  rw [length_natDecimalAux_step n n (by omega) le_rfl,
      length_natDecimalAux_step (n / 10) n (by omega) (by omega),
      length_natDecimalAux_step (n / 10 / 10) n (by omega) (by omega),
      length_natDecimalAux_step (n / 10 / 10 / 10) n (by omega) (by omega)]
  have : n / 10 / 10 / 10 / 10 = 0 := by omega
  rw [this, natDecimalAux_zero]
  rfl

/-! ## Label round-trip lemmas -/

theorem data_asString (l : List Char) : l.asString.data = l := rfl

theorem height_label_generic (h : Nat) (n4320 : h ≠ 4320) (n2160 : h ≠ 2160)
    (n1440 : h ≠ 1440) (n1080 : h ≠ 1080) (n720 : h ≠ 720) :
    height_label (some h) = natDecimal h ++ ['p'] := by
  unfold height_label
  split <;> simp_all

theorem searchHeight_three (a b c : Char) (ha : isDigitChar a = true)
    (hb : isDigitChar b = true) (hc : isDigitChar c = true) :
    searchHeight ([a, b, c] ++ ['p']) = some (digitsVal [a, b, c]) := by
  simp [searchHeight, tryHeightAt, grabDigits, ha, hb, hc]

theorem searchHeight_four (a b c d : Char) (ha : isDigitChar a = true)
    (hb : isDigitChar b = true) (hc : isDigitChar c = true)
    (hd : isDigitChar d = true) :
    searchHeight ([a, b, c, d] ++ ['p']) = some (digitsVal [a, b, c, d]) := by
  simp [searchHeight, tryHeightAt, grabDigits, ha, hb, hc, hd]

/-- C10: resolution labels round-trip through their parser: for every
height 100 ≤ h ≤ 9999, `parse_height_from_label (height_label h) = h`;
the absent height labels as `"Best available"`, which parses back to
`None`. -/
theorem label_parse_roundtrip (h : Nat) (h1 : 100 ≤ h) (h2 : h ≤ 9999) :
    parse_height_from_label (heightLabelStr (some h)) = some h ∧
    heightLabelStr none = "Best available" ∧
    parse_height_from_label "Best available" = none := by
  refine ⟨?_, by decide, by decide⟩
  by_cases e1 : h = 4320
  · subst e1; decide
  by_cases e2 : h = 2160
  · subst e2; decide
  by_cases e3 : h = 1440
  · subst e3; decide
  by_cases e4 : h = 1080
  · subst e4; decide
  by_cases e5 : h = 720
  · subst e5; decide
  unfold parse_height_from_label heightLabelStr
  rw [data_asString, height_label_generic h e1 e2 e3 e4 e5]
  have hdig := natDecimal_digits h
  by_cases h3 : h ≤ 999
  · obtain ⟨a, b, c, habc⟩ : ∃ a b c, natDecimal h = [a, b, c] :=
      List.length_eq_three.mp (length_natDecimal_three h h1 h3)
    rw [habc]
    rw [searchHeight_three a b c (hdig a (by rw [habc]; simp))
        (hdig b (by rw [habc]; simp)) (hdig c (by rw [habc]; simp))]
    rw [← habc, digitsVal_natDecimal]
  · obtain ⟨a, b, c, d, habcd⟩ : ∃ a b c d, natDecimal h = [a, b, c, d] := by
      have hlen := length_natDecimal_four h (by omega) h2
      rcases hl : natDecimal h with _ | ⟨a, t⟩
      · rw [hl] at hlen; simp at hlen
      · rw [hl] at hlen
        have ht3 : t.length = 3 := by simp at hlen; omega
        obtain ⟨b, c, d, ht⟩ := List.length_eq_three.mp ht3
        subst ht
        exact ⟨a, b, c, d, rfl⟩
    rw [habcd]
    rw [searchHeight_four a b c d (hdig a (by rw [habcd]; simp))
        (hdig b (by rw [habcd]; simp)) (hdig c (by rw [habcd]; simp))
        (hdig d (by rw [habcd]; simp))]
    rw [← habcd, digitsVal_natDecimal]

/-- Witness for C10 at the concrete in-range heights 480 and 1080. -/
theorem label_parse_roundtrip_witness :
    (100 ≤ 480 ∧ 480 ≤ 9999 ∧
      parse_height_from_label (heightLabelStr (some 480)) = some 480) ∧
    (100 ≤ 1080 ∧ 1080 ≤ 9999 ∧
      parse_height_from_label (heightLabelStr (some 1080)) = some 1080) :=
  ⟨⟨by decide, by decide, (label_parse_roundtrip 480 (by decide) (by decide)).1⟩,
   ⟨by decide, by decide, (label_parse_roundtrip 1080 (by decide) (by decide)).1⟩⟩

/-! ## `unique_path` lemmas -/

theorem digitsVal_replicate_zero (k : Nat) (l : List Char) :
    digitsVal (List.replicate k '0' ++ l) = digitsVal l := by
  induction k with
  | zero => rfl
  | succ m ih => simpa [digitsVal, List.replicate_succ] using ih

theorem digitsVal_pad3 (l : List Char) : digitsVal (pad3 l) = digitsVal l :=
  digitsVal_replicate_zero _ l

theorem pad3_natDecimal_inj {i j : Nat}
    (h : pad3 (natDecimal i) = pad3 (natDecimal j)) : i = j := by
  have := congrArg digitsVal h
  rwa [digitsVal_pad3, digitsVal_pad3, digitsVal_natDecimal, digitsVal_natDecimal] at this

theorem numberedName_inj (b e : List Char) : ∀ {i j : Nat},
    numberedName b e i = numberedName b e j → i = j := by
  intro i j h
  unfold numberedName at h
  have h2 := List.append_cancel_left h
  have h3 : pad3 (natDecimal i) ++ '.' :: e = pad3 (natDecimal j) ++ '.' :: e :=
    List.cons_injective h2
  have hlen : (pad3 (natDecimal i)).length = (pad3 (natDecimal j)).length := by
    have := congrArg List.length h3
    simp at this
    omega
  exact pad3_natDecimal_inj (List.append_inj h3 hlen).1

theorem joinPath_inj (d : List Char) {n1 n2 : List Char}
    (h : joinPath d n1 = joinPath d n2) : n1 = n2 :=
  List.cons_injective (List.append_cancel_left h)

/-- Pigeonhole: among `ex.length + 1` distinct numbered candidates at
least one is not an existing path. -/
theorem exists_free_numbered (ex : List (List Char)) (d b e : List Char) :
    ∃ k < ex.length + 1, joinPath d (numberedName b e (1 + k)) ∉ ex := by
  by_contra hall
  push_neg at hall
  set n := ex.length + 1 with hn
  set L : List (List Char) :=
    (List.range n).map (fun k => joinPath d (numberedName b e (1 + k))) with hL
  have hinj : Function.Injective (fun k => joinPath d (numberedName b e (1 + k))) := by
    intro x y hxy
    have := numberedName_inj b e (joinPath_inj d hxy)
    omega
  have hnodup : L.Nodup := List.Nodup.map hinj (List.nodup_range n)
  have hsub : L.toFinset ⊆ ex.toFinset := by
    intro p hp
    rw [List.mem_toFinset] at hp ⊢
    rw [hL, List.mem_map] at hp
    obtain ⟨k, hk, rfl⟩ := hp
    exact hall k (List.mem_range.mp hk)
  have hcard : L.toFinset.card = n := by
    rw [List.toFinset_card_of_nodup hnodup, hL]
    simp
  have := Finset.card_le_card hsub
  have := List.toFinset_card_le ex
  omega

theorem uniqueLoop_not_mem (ex : List (List Char)) (d b e : List Char) :
    ∀ fuel i, (∃ k < fuel, joinPath d (numberedName b e (i + k)) ∉ ex) →
      uniqueLoop ex d b e fuel i ∉ ex := by
  intro fuel
  induction fuel with
  | zero => intro i h; omega
  | succ f ih =>
      intro i h
      unfold uniqueLoop
      by_cases hc : joinPath d (numberedName b e i) ∈ ex
      · simp only [hc, if_true]
        apply ih (i + 1)
        obtain ⟨k, hk, hfree⟩ := h
        rcases k with _ | m
        · simp at hfree; exact absurd hc hfree
        · refine ⟨m, by omega, ?_⟩
          have heq : i + 1 + m = i + (m + 1) := by omega
          rw [heq]
          exact hfree
      · simp only [hc, if_false]
        exact not_false

theorem uniqueLoop_shape (ex : List (List Char)) (d b e : List Char) :
    ∀ fuel i, ∃ j, i ≤ j ∧
      uniqueLoop ex d b e fuel i = joinPath d (numberedName b e j) := by
  intro fuel
  induction fuel with
  | zero => intro i; exact ⟨i, le_rfl, rfl⟩
  | succ f ih =>
      intro i
      unfold uniqueLoop
      by_cases hc : joinPath d (numberedName b e i) ∈ ex
      · simp only [hc, if_true]
        obtain ⟨j, hj, hje⟩ := ih (i + 1)
        exact ⟨j, by omega, hje⟩
      · simp only [hc, if_false]
        exact ⟨i, le_rfl, rfl⟩

theorem unique_path_of_mem (ex : List (List Char)) (d b e : List Char)
    (h : joinPath d (plainName (safe_name b) (e.dropWhile (· = '.'))) ∈ ex) :
    unique_path ex d b e =
      uniqueLoop ex d (safe_name b) (e.dropWhile (· = '.')) (ex.length + 1) 1 := by
  unfold unique_path
  rw [if_pos h]

theorem unique_path_of_not_mem (ex : List (List Char)) (d b e : List Char)
    (h : joinPath d (plainName (safe_name b) (e.dropWhile (· = '.'))) ∉ ex) :
    unique_path ex d b e =
      joinPath d (plainName (safe_name b) (e.dropWhile (· = '.'))) := by
  unfold unique_path
  rw [if_neg h]

/-- C8: `unique_path` never returns an existing path (for any finite
directory state); and a second request with the same base/extension,
made after the first returned path was created, yields a distinct path
carrying a numeric suffix, so neither write overwrites the other. -/
theorem unique_path_fresh_and_second_numbered :
    (∀ ex d b e, unique_path ex d b e ∉ ex) ∧
    (∀ ex d b e,
       unique_path (unique_path ex d b e :: ex) d b e ≠ unique_path ex d b e ∧
       ∃ i, 1 ≤ i ∧
         unique_path (unique_path ex d b e :: ex) d b e =
           joinPath d (numberedName (safe_name b) (e.dropWhile (· = '.')) i)) := by
  have fresh : ∀ ex d b e, unique_path ex d b e ∉ ex := by
    intro ex d b e
    by_cases hc : joinPath d (plainName (safe_name b) (e.dropWhile (· = '.'))) ∈ ex
    · rw [unique_path_of_mem ex d b e hc]
      apply uniqueLoop_not_mem
      obtain ⟨k, hk, hfree⟩ := exists_free_numbered ex d (safe_name b) (e.dropWhile (· = '.'))
      exact ⟨k, hk, hfree⟩
    · rw [unique_path_of_not_mem ex d b e hc]
      exact hc
  refine ⟨fresh, ?_⟩
  intro ex d b e
  have h1 := fresh (unique_path ex d b e :: ex) d b e
  constructor
  · intro hEq
    exact h1 (by rw [hEq]; exact List.mem_cons_self _ _)
  · have hplain : joinPath d (plainName (safe_name b) (e.dropWhile (· = '.'))) ∈
        unique_path ex d b e :: ex := by
      by_cases hc : joinPath d (plainName (safe_name b) (e.dropWhile (· = '.'))) ∈ ex
      · exact List.mem_cons_of_mem _ hc
      · rw [unique_path_of_not_mem ex d b e hc]
        exact List.mem_cons_self _ _
    rw [unique_path_of_mem (unique_path ex d b e :: ex) d b e hplain]
    exact uniqueLoop_shape (unique_path ex d b e :: ex) d (safe_name b)
      (e.dropWhile (· = '.')) ((unique_path ex d b e :: ex).length + 1) 1

/-- C1: the claim says `pick_stream_url` selects the tallest height not
exceeding the ceiling and treats formats above the ceiling as maximally
undesirable.  The code's `score` returns
`-(h if fits else 10**6)`: the negation also applies to the `10**6`
sentinel, so a format above the ceiling gets the smallest possible key
`-1000000` and sorts first.  With ceiling 1080 and candidate formats of
heights 720 (fits) and 1440 (exceeds), the code chooses the 1440p
format even though the 720p one fits. -/
theorem pick_stream_url_over_ceiling_bug :
    pickChosen (some 1080) [fmt720, fmt1440] = some fmt1440 ∧
    fmt1440.height.getD 0 > 1080 ∧ fmt720.height.getD 0 ≤ 1080 := by decide

/-- C2: the claim says every progress-percentage sequence of a single
job run is non-decreasing until the terminal event.  In the API
screenshot run (100 s video, 10 s interval, all 11 frames decoded) the
frame loop reaches the 90 cap and the subsequent hard-coded
"Creating ZIP file..." milestone emits 85, so the emitted sequence
contains 90 followed by 85. -/
theorem api_screenshots_progress_not_monotonic :
    tracePcts (extract_screenshots_trace false 10 11 10) =
      [0, 15, 25, 30, 36, 42, 48, 54, 60, 66, 72, 78, 84, 90, 90, 85, 90, 100, 100] ∧
    ¬ nonDecreasing (tracePcts (extract_screenshots_trace false 10 11 10)) := by decide

/-- C4: the claim says that once the cancellation token is observed the
job stops, emits no further progress events and terminates as
Cancelled.  In fast (FFmpeg) screenshot mode the `Cancelled` exception
raised by the sampling loop is caught by the inner `except Exception`
fallback handler: the code then emits a further "Stream extraction
failed (Cancelled by user); falling back…" progress event and starts a
fresh yt-dlp download, whose first progress hook finally re-raises
`Cancelled` into the outer handler.  The trace below (cancellation
observed after the first saved frame, i.e. after index 4) shows the
extra progress event and the extra download between the observation
and the Cancelled terminal. -/
theorem fast_mode_cancel_leaks_into_fallback :
    run_screenshots_stream_trace false (some 10) true true
        (.cancelledAfter [1]) (.cancelledAfter []) =
      [.mkSessionDir, .status 0 true "Starting… 0%", .netProbe, .spawnFFmpeg,
       .status 4 true "Saved screenshot(s)…",
       .status 0 true "Stream extraction failed (Cancelled by user); falling back…",
       .netDownload, .statusCancelled] ∧
    (run_screenshots_stream_trace false (some 10) true true
        (.cancelledAfter [1]) (.cancelledAfter [])).drop 5 =
      [.status 0 true "Stream extraction failed (Cancelled by user); falling back…",
       .netDownload, .statusCancelled] := by decide

/-- C5 counterexample: the claim says that in the HTTP API variant too,
a job with an unresolvable ffmpeg fails before any extraction-library
call.  `generate_video` in `download_video` never invokes
`resolve_ffmpeg_exe`: with ffmpeg unresolvable the extraction-library
network call still occurs and no ffmpeg fatal error precedes it. -/
theorem api_video_no_ffmpeg_check :
    ¬ fatalBeforeNetwork (api_generate_video_steps false) ∧
    DlStep.netExtract ∈ api_generate_video_steps false ∧
    DlStep.fatalFFmpegMissing ∉ api_generate_video_steps false := by decide

/-- C5 amended: in the UI variant (`_download_video_blocking` and
`_download_audio_blocking`) an unresolvable ffmpeg is a fatal error
raised before any extraction-library call; the HTTP API variant
(`generate_video` / `generate_audio`) performs the extraction-library
call without ever resolving ffmpeg, so no such early failure exists
there. -/
theorem ffmpeg_missing_fatal_ui_only :
    download_video_blocking_steps false = [.resolveFFmpeg, .fatalFFmpegMissing] ∧
    download_audio_blocking_steps false = [.resolveFFmpeg, .fatalFFmpegMissing] ∧
    DlStep.netExtract ∉ download_video_blocking_steps false ∧
    DlStep.netExtract ∉ download_audio_blocking_steps false ∧
    (∀ b, DlStep.resolveFFmpeg ∉ api_generate_video_steps b ∧
          DlStep.fatalFFmpegMissing ∉ api_generate_video_steps b ∧
          DlStep.netExtract ∈ api_generate_video_steps b ∧
          DlStep.resolveFFmpeg ∉ api_generate_audio_steps b ∧
          DlStep.fatalFFmpegMissing ∉ api_generate_audio_steps b ∧
          DlStep.netExtract ∈ api_generate_audio_steps b) := by decide

/-- C6: a non-positive interval is rejected up front in both variants:
the only emitted event is the validation error, and no session
directory, network access or external process occurs. -/
theorem nonpositive_interval_rejected (q : ℚ) (hq : q ≤ 0) :
    (∀ modeFast ffmpegOk run fallback,
      run_screenshots_stream_trace false (some q) modeFast ffmpegOk run fallback =
        [.status 0 false "Interval must be > 0 sec."]) ∧
    (∀ nf ef, extract_screenshots_trace false q nf ef =
        [.emitError "Interval must be > 0 seconds"]) ∧
    (∀ modeFast ffmpegOk run fallback,
      ∀ a ∈ run_screenshots_stream_trace false (some q) modeFast ffmpegOk run fallback,
        a ≠ UiAct.mkSessionDir ∧ a ≠ UiAct.netProbe ∧ a ≠ UiAct.netDownload ∧
        a ≠ UiAct.spawnFFmpeg) ∧
    (∀ nf ef, ∀ a ∈ extract_screenshots_trace false q nf ef,
        a ≠ ApiAct.mkSessionDir ∧ a ≠ ApiAct.netCall) := by
  refine ⟨?_, ?_, ?_, ?_⟩
  · intro modeFast ffmpegOk run fallback
    simp [run_screenshots_stream_trace, hq]
  · intro nf ef
    simp [extract_screenshots_trace, hq]
  · intro modeFast ffmpegOk run fallback a ha
    simp [run_screenshots_stream_trace, hq] at ha
    simp [ha]
  · intro nf ef a ha
    simp [extract_screenshots_trace, hq] at ha
    simp [ha]

/-- Witness for C6 at the concrete non-positive interval 0. -/
theorem nonpositive_interval_rejected_witness :
    (0 : ℚ) ≤ 0 ∧
    extract_screenshots_trace false 0 11 10 =
      [.emitError "Interval must be > 0 seconds"] ∧
    run_screenshots_stream_trace false (some 0) true true
        (.completes []) (.completes []) =
      [.status 0 false "Interval must be > 0 sec."] :=
  ⟨le_refl 0,
   (nonpositive_interval_rejected 0 (le_refl 0)).2.1 11 10,
   (nonpositive_interval_rejected 0 (le_refl 0)).1 true true (.completes []) (.completes [])⟩

/-- C7: the resolution probe never raises (it is total here): any
probing exception (`probe = none`) and any probe whose formats carry no
video-codec height both yield the fixed fallback ladder, and the
concrete scenario with heights 1080/720/480 yields the stated video
label list. -/
theorem probe_resolutions_fallback_and_scenario :
    (∀ url, probe_resolutions_labels url none = fallbackPair) ∧
    (∀ url fmts, probeHeights fmts = [] →
        probe_resolutions_labels url (some fmts) = fallbackPair) ∧
    fallbackPair.1 = ["Best available (MP4)", "4320p (8K)", "2160p (4K)",
        "1440p (QHD)", "1080p (Full HD)", "720p (HD)"] ∧
    fallbackPair.2 = ["Best available", "4320p (8K)", "2160p (4K)",
        "1440p (QHD)", "1080p (Full HD)", "720p (HD)"] ∧
    (probe_resolutions_labels "https://www.youtube.com/watch?v=abc123"
        (some [{ vcodec := some "avc1", height := some 1080, protocol := some "https", ext := some "mp4" },
               { vcodec := some "avc1", height := some 720, protocol := some "https", ext := some "mp4" },
               { vcodec := some "avc1", height := some 480, protocol := some "https", ext := some "mp4" },
               { vcodec := some "none", height := none, protocol := some "https", ext := some "m4a" }])).1 =
      ["Best available (MP4)", "1080p (Full HD)", "720p (HD)", "480p"] := by
  refine ⟨?_, ?_, by decide, by decide, by decide⟩
  · intro url
    unfold probe_resolutions_labels
    split <;> rfl
  · intro url fmts h
    unfold probe_resolutions_labels
    split
    · rfl
    · simp [h, fallbackPair]

/-- Witness for C7: a probe whose only format is audio-only (no video
codec) yields the fallback ladder. -/
theorem probe_resolutions_fallback_witness :
    probe_resolutions_labels "https://youtu.be/abc123"
        (some [{ vcodec := some "none", height := some 1080, protocol := some "https", ext := some "m4a" }]) =
      fallbackPair :=
  probe_resolutions_fallback_and_scenario.2.1 "https://youtu.be/abc123" _ (by decide)

/-- C9 counterexample: the normalizer is not idempotent on its own
output.  For the input `https://youtu.be/a&b` the first pass embeds the
raw `&` into the query of the produced watch URL; the second pass splits
the query at `&` and keeps only `v=a`. -/
theorem normalize_not_idempotent_counterexample :
    normalize_watch_url "https://youtu.be/a&b" =
      some "https://www.youtube.com/watch?v=a&b" ∧
    normalize_watch_url "https://www.youtube.com/watch?v=a&b" =
      some "https://www.youtube.com/watch?v=a" ∧
    ("https://www.youtube.com/watch?v=a" : String) ≠
      "https://www.youtube.com/watch?v=a&b" := by
  refine ⟨by decide, by decide, by decide⟩

end YtDl
